import Mathlib

/-!
# Synra MCP Gateway — verification of the gateway request path

A shallow embedding of the gateway's core request path, translated from the
TypeScript sources:

* `src/lib/sql-sanitizer.ts` — `sanitizeSql`, `sanitizeTableName` (SQL guard);
* `src/lib/encryption.ts` — `encrypt` / `decrypt` (crypto envelope), with the
  AES-256-GCM primitive and the PBKDF2 key derivation of Node's `crypto`
  library abstracted as a `CipherModel` parameter;
* `src/app/api/mcp/[endpointId]/route.ts` — the JSON-RPC dispatcher (`POST`),
  `decryptCredentialConfig`, and the tools/call pipeline;
* `src/lib/mcp-handlers/postgresql.ts` — the `query_table` limit computation;
* `src/app/api/test-connection/route.ts` — the trial-counter gate and the
  test-connection flow.

JavaScript semantics are embedded explicitly: string falsiness (`""` is
falsy) is modelled by `jsTruthy`, `x || d` on numbers (where `0` and absence
are falsy) by explicit matches, and exceptions by `Option`.
-/

set_option autoImplicit false

namespace Synra

/-! ## SQL guard (`src/lib/sql-sanitizer.ts`) -/

/-- Characters accepted by `sanitizeTableName`'s character class
`[a-zA-Z0-9_.]`. -/
def isTableChar (c : Char) : Bool :=
  ('a' ≤ c && c ≤ 'z') || ('A' ≤ c && c ≤ 'Z') || ('0' ≤ c && c ≤ '9') ||
    c = '_' || c = '.'

/-- `sanitizeTableName` from `sql-sanitizer.ts`.  The source throws on a
falsy name, on any character outside `[a-zA-Z0-9_.]` (detected by comparing
the filtered string with the original), and on length 0 or > 128; a throw is
modelled as `none`.  On success it returns the input unchanged. -/
def sanitizeTableName (name : String) : Option String :=
  if name = "" then none
  else if (⟨name.data.filter isTableChar⟩ : String) ≠ name then none
  else if (⟨name.data.filter isTableChar⟩ : String).length = 0 ||
          (⟨name.data.filter isTableChar⟩ : String).length > 128 then none
  else some ⟨name.data.filter isTableChar⟩

/-- Spec-side regular expression `^[A-Za-z0-9_.]{1,128}$` from the claim,
stated independently of `sanitizeTableName`. -/
def identPattern (s : String) : Bool :=
  s.data.all isTableChar && decide (1 ≤ s.length) && decide (s.length ≤ 128)

/-- The word characters of the JavaScript regex class `\w` (used by the
word-boundary assertion `\b`): `[A-Za-z0-9_]`. -/
def isWordChar (c : Char) : Bool :=
  ('a' ≤ c && c ≤ 'z') || ('A' ≤ c && c ≤ 'Z') || ('0' ≤ c && c ≤ '9') || c = '_'

/-- ASCII upper-casing, as performed by `toUpperCase` / the regex `i` flag on
the ASCII keywords involved. -/
def upChar (c : Char) : Char :=
  if 'a' ≤ c && c ≤ 'z' then Char.ofNat (c.toNat - 32) else c

/-- JavaScript `String.prototype.trim`: strip leading and trailing
whitespace (space, tab, carriage return, line feed). -/
def jsTrim (s : String) : String :=
  ⟨((s.data.dropWhile Char.isWhitespace).reverse.dropWhile
      Char.isWhitespace).reverse⟩

/-- `BLOCKED_KEYWORDS` from `sql-sanitizer.ts`. -/
def BLOCKED_KEYWORDS : List String :=
  ["INSERT", "UPDATE", "DELETE", "DROP", "TRUNCATE", "ALTER", "CREATE",
   "GRANT", "REVOKE", "EXEC", "EXECUTE"]

/-- Match the upper-case pattern `kw` against the text head case-insensitively
and return the rest of the text, or `none` if it does not match. -/
def stripKw : List Char → List Char → Option (List Char)
  | [], cs => some cs
  | _ :: _, [] => none
  | k :: ks, c :: cs => if k = upChar c then stripKw ks cs else none

/-- The word-boundary assertion right after a matched keyword: end of input or
a non-word character. -/
def boundaryOk : List Char → Bool
  | [] => true
  | c :: _ => !isWordChar c

/-- The keyword `kw` (upper case) occurs at the head of `cs`, followed by a
word boundary. -/
def wholeWordAt (kw cs : List Char) : Bool :=
  match stripKw kw cs with
  | some rest => boundaryOk rest
  | none => false

/-- Scan for a whole-word, case-insensitive occurrence of `kw`, tracking in
`prevW` whether the previous character was a word character (so that `\b`
holds on the left of the candidate occurrence). -/
def scanWord (kw : List Char) : Bool → List Char → Bool
  | _, [] => false
  | prevW, c :: cs =>
      (!prevW && wholeWordAt kw (c :: cs)) || scanWord kw (isWordChar c) cs

/-- The regex test `new RegExp("\\b" ++ kw ++ "\\b", "i").test(sql)` of
`sanitizeSql`, for the ASCII keywords of `BLOCKED_KEYWORDS`. -/
def testWholeWord (kw : String) (sql : String) : Bool :=
  scanWord kw.data false sql.data

/-- `sql.includes(pat)`: exact (case-sensitive) prefix match helper. -/
def stripExact : List Char → List Char → Option (List Char)
  | [], cs => some cs
  | _ :: _, [] => none
  | p :: ps, c :: cs => if p = c then stripExact ps cs else none

/-- `sql.includes(pat)`: substring occurrence. -/
def hasSub (pat : List Char) : List Char → Bool
  | [] => pat.isEmpty
  | c :: cs => (stripExact pat (c :: cs)).isSome || hasSub pat cs

/-- `upper.startsWith(kw)` where the text is already upper-cased. -/
def startsWithUp : List Char → List Char → Bool
  | [], _ => true
  | _ :: _, [] => false
  | p :: ps, c :: cs => p = c && startsWithUp ps cs

/-- The first blocked keyword whose whole-word regex matches the raw input
(the source's `for` loop over `BLOCKED_KEYWORDS`). -/
def findBlocked (sql : String) : Option String :=
  BLOCKED_KEYWORDS.find? (fun kw => testWholeWord kw sql)

/-- Result record of `sanitizeSql` (`{ safe, reason? }`). -/
structure SanitizeResult where
  safe : Bool
  reason : Option String
  deriving Repr, DecidableEq

/-- `sanitizeSql` from `sql-sanitizer.ts`, translated check for check and in
the source's order: falsy input, empty after trim, `SELECT`/`WITH` head on
the upper-cased trimmed input, blocked whole-word keywords on the raw input,
then `;`, then `--` and `/*`. -/
def sanitizeSql (sql : String) : SanitizeResult :=
  if sql = "" then ⟨false, some "SQL query is required"⟩
  else if (jsTrim sql).length = 0 then ⟨false, some "SQL query is empty"⟩
  else if !(startsWithUp "SELECT".data ((jsTrim sql).data.map upChar) ||
            startsWithUp "WITH".data ((jsTrim sql).data.map upChar)) then
    ⟨false, some "Only SELECT queries are allowed"⟩
  else
    match findBlocked sql with
    | some kw => ⟨false, some ("Blocked keyword found: " ++ kw)⟩
    | none =>
      if sql.data.contains ';' then
        ⟨false, some "Multiple statements not allowed (semicolons are blocked)"⟩
      else if hasSub "--".data sql.data || hasSub "/*".data sql.data then
        ⟨false, some "SQL comments are not allowed"⟩
      else ⟨true, none⟩

/-! Spec-side occurrence predicates for the guard-soundness claim, stated
independently of the scanning functions above. -/

/-- `pat` occurs as a contiguous substring of `l`. -/
def ContainsSub (pat l : List Char) : Prop :=
  ∃ x y, l = x ++ pat ++ y

/-- Nothing on the left, or a non-word character right before the occurrence. -/
def WordBoundaryLeft (pre : List Char) : Prop :=
  pre = [] ∨ ∃ l c, pre = l ++ [c] ∧ isWordChar c = false

/-- Nothing on the right, or a non-word character right after the occurrence. -/
def WordBoundaryRight (post : List Char) : Prop :=
  post = [] ∨ ∃ c l, post = c :: l ∧ isWordChar c = false

/-- The keyword `kw` (upper case) occurs in `s` as a whole word, in any letter
case. -/
def OccursWholeWord (kw : String) (s : String) : Prop :=
  ∃ pre mid post, s.data = pre ++ mid ++ post ∧ mid.map upChar = kw.data ∧
    WordBoundaryLeft pre ∧ WordBoundaryRight post

/-! ## Crypto envelope (`src/lib/encryption.ts`)

Bytes are modelled as natural numbers `< 256`; byte strings as `List Nat`.
The AES-256-GCM primitive (`createCipheriv` / `createDecipheriv`) and the
PBKDF2 derivation (`pbkdf2Sync`), both provided by Node's `crypto` library
rather than by this repository, are abstracted as a `CipherModel`; the
theorems assume only the documented GCM contract (decrypting with the same
key, IV and tag recovers the plaintext).  The envelope layer — random salt
and IV draws, hex encoding, the `salt:iv:ciphertext:tag` join, and the
four-part split on decryption — is translated from the source. -/

/-- `SALT_LENGTH` from `encryption.ts`. -/
def SALT_LENGTH : Nat := 64

/-- `IV_LENGTH` from `encryption.ts`. -/
def IV_LENGTH : Nat := 16

/-- Lowercase hex digit, as produced by `Buffer.toString("hex")`. -/
def hexChar (n : Nat) : Char :=
  if n < 10 then Char.ofNat (48 + n) else Char.ofNat (97 + (n - 10))

/-- Value of a lowercase-hex digit, as consumed by `Buffer.from(s, "hex")`. -/
def hexVal (c : Char) : Option Nat :=
  if '0' ≤ c && c ≤ '9' then some (c.toNat - 48)
  else if 'a' ≤ c && c ≤ 'f' then some (c.toNat - 97 + 10)
  else none

/-- Hex-encode a byte string (two lowercase digits per byte). -/
def encodeHex : List Nat → List Char
  | [] => []
  | b :: bs => hexChar (b / 16 % 16) :: hexChar (b % 16) :: encodeHex bs

/-- Hex-decode a string of hex digit pairs. -/
def decodeHex : List Char → Option (List Nat)
  | [] => some []
  | [_] => none
  | c₁ :: c₂ :: rest => do
      let h ← hexVal c₁
      let l ← hexVal c₂
      let bs ← decodeHex rest
      pure ((16 * h + l) :: bs)

/-- `s.split(":")` on character lists. -/
def splitColon : List Char → List (List Char)
  | [] => [[]]
  | c :: cs =>
      if c = ':' then [] :: splitColon cs
      else
        match splitColon cs with
        | [] => [[c]]
        | p :: ps => (c :: p) :: ps

/-- Abstraction of the library crypto used by `encryption.ts`:
`kdf` stands for `pbkdf2Sync(masterKey, salt, 100000, 32, "sha256")`,
`encBytes` for the AES-256-GCM cipher returning `(ciphertext, authTag)`, and
`decBytes` for the GCM decipher, `none` meaning the tag check threw. -/
structure CipherModel where
  kdf : List Nat → List Nat → List Nat
  encBytes : List Nat → List Nat → List Nat → List Nat × List Nat
  decBytes : List Nat → List Nat → List Nat → List Nat → Option (List Nat)

/-- The salt drawn by `crypto.randomBytes(SALT_LENGTH)`, reading the process
randomness stream `rng` at position `pos`. -/
def freshSalt (rng : Nat → Nat) (pos : Nat) : List Nat :=
  (List.range SALT_LENGTH).map fun i => rng (pos + i)

/-- The IV drawn by `crypto.randomBytes(IV_LENGTH)` right after the salt. -/
def freshIV (rng : Nat → Nat) (pos : Nat) : List Nat :=
  (List.range IV_LENGTH).map fun i => rng (pos + SALT_LENGTH + i)

/-- `encrypt` from `encryption.ts`.  `envKey = none` models an unset
`ENCRYPTION_KEY` (the source throws).  Fresh randomness is modelled as the
stream `rng` read at the call's position `pos`: one call consumes the 64
salt bytes followed by the 16 IV bytes.  The plaintext is the UTF-8 byte
string of the input. -/
def encrypt (M : CipherModel) (envKey : Option (List Nat)) (rng : Nat → Nat)
    (pos : Nat) (text : List Nat) : Option (List Char) :=
  match envKey with
  | none => none
  | some masterKey =>
      let salt := freshSalt rng pos
      let iv := freshIV rng pos
      let key := M.kdf masterKey salt
      let ct := (M.encBytes key iv text).1
      let tag := (M.encBytes key iv text).2
      some (encodeHex salt ++ ':' :: encodeHex iv ++ ':' ::
            encodeHex ct ++ ':' :: encodeHex tag)

/-- `decrypt` from `encryption.ts`: require the master key, split the
envelope on `:` into exactly four parts, hex-decode each, re-derive the key
from the stored salt, and run the GCM decipher.  Any failure (the source
throws) is `none`. -/
def decrypt (M : CipherModel) (envKey : Option (List Nat))
    (txt : List Char) : Option (List Nat) :=
  match envKey with
  | none => none
  | some masterKey =>
      match splitColon txt with
      | [saltH, ivH, ctH, tagH] => do
          let salt ← decodeHex saltH
          let iv ← decodeHex ivH
          let ct ← decodeHex ctH
          let tag ← decodeHex tagH
          M.decBytes (M.kdf masterKey salt) iv ct tag
      | _ => none

/-! ## JSON-RPC dispatcher (`src/app/api/mcp/[endpointId]/route.ts`)

Credential config maps (JSON objects with unique keys) are association
lists `List (String × String)`.  The imported `decrypt` is abstracted as a
parameter `dec : String → Option String` (`none` = the decryption threw);
the claims hold for every such function, in particular for the envelope
`decrypt` above composed with UTF-8 decoding. -/

/-- JavaScript truthiness for an optional string field (`undefined` and `""`
are falsy). -/
def jsTruthy : Option String → Bool
  | none => false
  | some s => !(s = "")

/-- `v || d` on optional string fields. -/
def orDefault (v : Option String) (d : String) : String :=
  match v with
  | some s => if s = "" then d else s
  | none => d

/-- Field access `config.key` on a JSON object modelled as an association
list. -/
def lookupKey (cfg : List (String × String)) (k : String) : Option String :=
  (cfg.find? (fun p => p.1 = k)).map Prod.snd

/-- `a || b || ...` over optional string fields: the first truthy value. -/
def firstTruthy : List (Option String) → Option String
  | [] => none
  | v :: vs => if jsTruthy v then v else firstTruthy vs

/-- A tool definition as far as dispatch is concerned (`name`; the
description and input schema of the source records do not participate in any
dispatch decision). -/
structure ToolDef where
  name : String
  deriving Repr, DecidableEq

/-- Names of `SUPABASE_TOOLS` (`src/lib/mcp-handlers/supabase.ts`). -/
def SUPABASE_TOOLS : List ToolDef :=
  [⟨"list_tables"⟩, ⟨"describe_table"⟩, ⟨"query_table"⟩, ⟨"execute_sql"⟩]

/-- Names of `POSTGRESQL_TOOLS` (`src/lib/mcp-handlers/postgresql.ts`). -/
def POSTGRESQL_TOOLS : List ToolDef :=
  [⟨"list_tables"⟩, ⟨"describe_table"⟩, ⟨"query_table"⟩, ⟨"execute_sql"⟩]

/-- Names of `MYSQL_TOOLS` from the MySQL handler (the module exporting
`MYSQL_TOOLS`, `MysqlConfig` and `handleMysqlTool` that the route imports;
in this source snapshot it is the second concatenated document inside
`src/lib/mcp-handlers/mixpanel.ts`). -/
def MYSQL_TOOLS : List ToolDef :=
  [⟨"list_tables"⟩, ⟨"describe_table"⟩, ⟨"query_table"⟩, ⟨"execute_sql"⟩]

/-- The tool-list selection ternary of the route: `postgresql` and `mysql`
get their own lists, every other slug gets `SUPABASE_TOOLS`. -/
def availableTools (slug : String) : List ToolDef :=
  if slug = "postgresql" then POSTGRESQL_TOOLS
  else if slug = "mysql" then MYSQL_TOOLS
  else SUPABASE_TOOLS

/-- `decryptCredentialConfig` from the route: decrypt each value, keeping the
stored value verbatim when decryption throws (`try … catch`). -/
def decryptCredentialConfig (dec : String → Option String) :
    List (String × String) → List (String × String)
  | [] => []
  | (k, v) :: rest =>
      (k, match dec v with
          | some d => d
          | none => v) :: decryptCredentialConfig dec rest

/-- The connection parameters the route passes to `handlePostgresqlTool` /
`handleMysqlTool` (`PostgresqlConfig` / `MysqlConfig`). -/
structure SqlConnConfig where
  host : Option String
  port : String
  database : Option String
  user : Option String
  password : Option String
  ssl : Option String
  deriving Repr, DecidableEq

/-- Where a `tools/call` request ends up: a JSON-RPC error reply, or the
invocation of one of the three adapters with the arguments the route built. -/
inductive DispatchOutcome where
  | rpcError (code : Int) (message : String)
  | invokePostgresql (tool : String) (cfg : SqlConnConfig)
  | invokeMysql (tool : String) (cfg : SqlConnConfig)
  | invokeSupabase (tool : String) (url apiKey : String)
      (decryptedConfig : List (String × String))
  deriving Repr, DecidableEq

/-- Pipeline steps of the `POST` handler, for stating execution order. -/
inductive Step where
  | parseBody
  | protocolCheck
  | endpointLookup
  | activeCheck
  | credentialCheck
  | quotaGate
  | touchEndpoint
  | nameCheck
  | toolSetCheck
  | allowListCheck
  | unseal
  | credFieldsCheck
  | adapterInvoke
  deriving Repr, DecidableEq

/-- The `allowed_tools` restriction of the route: blocks only when the field
is a non-empty array not containing the tool. -/
def allowedBlocks (allowed : Option (List String)) (toolName : String) : Bool :=
  match allowed with
  | some l => !(l.length = 0) && !(l.contains toolName)
  | none => false

/-- `Object.keys(decryptedConfig).join(", ")`. -/
def joinKeys (cfg : List (String × String)) : String :=
  String.intercalate ", " (cfg.map Prod.fst)

/-- The supabase-branch URL extraction:
`config.url || config.supabase_url || config.project_url`. -/
def supabaseUrlOf (d : List (String × String)) : Option String :=
  firstTruthy [lookupKey d "url", lookupKey d "supabase_url", lookupKey d "project_url"]

/-- The supabase-branch API-key extraction:
`config.service_role_key || config.api_key || config.anon_key || config.key`. -/
def supabaseKeyOf (d : List (String × String)) : Option String :=
  firstTruthy [lookupKey d "service_role_key", lookupKey d "api_key",
    lookupKey d "anon_key", lookupKey d "key"]

/-- The SQL branches' connection-parameter extraction (`host`, `port` with a
default, `database`, `user`, `password`, `ssl`). -/
def sqlConnOf (d : List (String × String)) (defaultPort : String) : SqlConnConfig :=
  ⟨lookupKey d "host", orDefault (lookupKey d "port") defaultPort,
   lookupKey d "database", lookupKey d "user", lookupKey d "password",
   lookupKey d "ssl"⟩

/-- Completeness check of the SQL branches:
`!cfg.host || !cfg.database || !cfg.user || !cfg.password`. -/
def sqlConnIncomplete (c : SqlConnConfig) : Bool :=
  !jsTruthy c.host || !jsTruthy c.database || !jsTruthy c.user || !jsTruthy c.password

/-- The `tools/call` case of the route's `POST`, translated branch for
branch; returns the steps executed (in order) and where the request ended
up.  `toolName` is `rpcParams?.name`. -/
def toolsCall (dec : String → Option String) (slug : String)
    (allowed : Option (List String)) (config : List (String × String))
    (toolName : Option String) : List Step × DispatchOutcome :=
  if !jsTruthy toolName then
    ([.nameCheck], .rpcError (-32602) "Invalid params: tool name is required")
  else
    let n := toolName.getD ""
    let avail := availableTools slug
    if !(avail.any fun t => t.name = n) then
      ([.nameCheck, .toolSetCheck], .rpcError (-32601) ("Tool not found: " ++ n))
    else if allowedBlocks allowed n then
      ([.nameCheck, .toolSetCheck, .allowListCheck],
       .rpcError (-32601) ("Tool '" ++ n ++ "' is not enabled for this endpoint"))
    else
      let d := decryptCredentialConfig dec config
      let pre : List Step := [.nameCheck, .toolSetCheck, .allowListCheck, .unseal]
      if slug = "postgresql" then
        let pgConfig := sqlConnOf d "5432"
        if sqlConnIncomplete pgConfig then
          (pre ++ [.credFieldsCheck],
           .rpcError (-32000) ("Incomplete PostgreSQL credentials. Found keys: [" ++
             joinKeys d ++ "]. Need host, database, user, and password."))
        else (pre ++ [.credFieldsCheck, .adapterInvoke], .invokePostgresql n pgConfig)
      else if slug = "mysql" then
        let myConfig := sqlConnOf d "3306"
        if sqlConnIncomplete myConfig then
          (pre ++ [.credFieldsCheck],
           .rpcError (-32000) ("Incomplete MySQL credentials. Found keys: [" ++
             joinKeys d ++ "]. Need host, database, user, and password."))
        else (pre ++ [.credFieldsCheck, .adapterInvoke], .invokeMysql n myConfig)
      else
        match supabaseUrlOf d, supabaseKeyOf d with
        | some url, some apiKey =>
            (pre ++ [.credFieldsCheck, .adapterInvoke], .invokeSupabase n url apiKey d)
        | _, _ =>
            (pre ++ [.credFieldsCheck],
             .rpcError (-32000) ("Incomplete credentials. Found keys: [" ++
               joinKeys d ++ "]. Need a URL and API key."))

/-- The credential row joined by `lookupEndpoint` (`credentials(*)`): the
fields the `POST` handler reads. -/
structure CredentialRec where
  is_active : Bool
  config : List (String × String)

/-- The endpoint row: the fields the `POST` handler reads. -/
structure EndpointRec where
  is_active : Bool
  service_slug : String
  allowed_tools : Option (List String)
  credentials : Option CredentialRec

/-- A parsed JSON-RPC request body (`{ jsonrpc, id, method, params }`); the
`id` is echoed opaquely and does not influence control flow. -/
structure RpcBody where
  jsonrpc : String
  method : String
  paramName : Option String

/-- The environment a `POST` call runs in: the endpoint-lookup result, the
`canMakeRequest` usage-limit answer for the organization, and the decrypt
function. -/
structure GatewayEnv where
  endpoint : Option EndpointRec
  usageAllowed : Bool
  usageReason : Option String
  dec : String → Option String

/-- The reply of the `POST` handler, up to adapter invocation: `invoked`
means the request reached an adapter (the subsequent translation of the
adapter's `{ok}/{err}` result is outside this claim set). -/
inductive GatewayResponse where
  | rpcErr (code : Int) (message : String)
  | initializeResult
  | noContent
  | toolsListResult (tools : List ToolDef)
  | pingResult
  | invoked (o : DispatchOutcome)

/-- The `tools/list` selection and allow-list filtering of the route. -/
def toolsList (slug : String) (allowed : Option (List String)) : List ToolDef :=
  let tools := availableTools slug
  match allowed with
  | some l => if !(l.length = 0) then tools.filter (fun t => l.contains t.name) else tools
  | none => tools

/-- The `POST` handler of the route, translated gate for gate: body parse,
`jsonrpc` check, endpoint lookup, active checks, credential check, the
`canMakeRequest` usage gate, the fire-and-forget `last_accessed_at` touch,
then the method `switch`.  Returns the executed steps in order and the
reply. -/
def gatewayPost (env : GatewayEnv) (body : Option RpcBody) :
    List Step × GatewayResponse :=
  match body with
  | none => ([.parseBody], .rpcErr (-32700) "Parse error: invalid JSON")
  | some b =>
    if b.jsonrpc ≠ "2.0" then
      ([.parseBody, .protocolCheck],
       .rpcErr (-32600) "Invalid Request: must use JSON-RPC 2.0")
    else
      match env.endpoint with
      | none => ([.parseBody, .protocolCheck, .endpointLookup],
                 .rpcErr (-32001) "Endpoint not found")
      | some ep =>
        if !ep.is_active then
          ([.parseBody, .protocolCheck, .endpointLookup, .activeCheck],
           .rpcErr (-32002) "Endpoint is inactive")
        else
          match ep.credentials with
          | none =>
              ([.parseBody, .protocolCheck, .endpointLookup, .activeCheck,
                .credentialCheck],
               .rpcErr (-32001) "Credential not found or inactive")
          | some cred =>
            if !cred.is_active then
              ([.parseBody, .protocolCheck, .endpointLookup, .activeCheck,
                .credentialCheck],
               .rpcErr (-32001) "Credential not found or inactive")
            else if !env.usageAllowed then
              ([.parseBody, .protocolCheck, .endpointLookup, .activeCheck,
                .credentialCheck, .quotaGate],
               .rpcErr (-32003)
                 (orDefault env.usageReason
                   "Rate limit exceeded. Please upgrade your plan."))
            else
              let pre : List Step :=
                [.parseBody, .protocolCheck, .endpointLookup, .activeCheck,
                 .credentialCheck, .quotaGate, .touchEndpoint]
              if b.method = "initialize" then (pre, .initializeResult)
              else if b.method = "notifications/initialized" then (pre, .noContent)
              else if b.method = "tools/list" then
                (pre, .toolsListResult (toolsList ep.service_slug ep.allowed_tools))
              else if b.method = "tools/call" then
                let r := toolsCall env.dec ep.service_slug ep.allowed_tools
                  cred.config b.paramName
                (pre ++ r.1,
                 match r.2 with
                 | .rpcError c m => .rpcErr c m
                 | o => .invoked o)
              else if b.method = "ping" then (pre, .pingResult)
              else (pre, .rpcErr (-32601) ("Method not found: " ++ b.method))

/-! ## `query_table` row limit (`src/lib/mcp-handlers/postgresql.ts`) -/

/-- `MAX_ROWS` from `postgresql.ts`. -/
def MAX_ROWS : Int := 500

/-- The limit computation of `queryTable`:
`Math.min(params.limit || 50, MAX_ROWS)`.  An absent limit and the falsy
limit `0` default to 50; any other number — negative numbers included — is
kept. -/
def queryTableLimit (limit : Option Int) : Int :=
  min (match limit with
       | none => 50
       | some v => if v = 0 then 50 else v) MAX_ROWS

/-- `params.offset || 0`. -/
def queryTableOffset (offset : Option Int) : Int :=
  match offset with
  | none => 0
  | some o => if o = 0 then 0 else o

/-- The rows produced by running `SELECT … LIMIT l OFFSET o` upstream, for
the post-`WHERE` row list of the target table: PostgreSQL rejects a negative
`LIMIT`/`OFFSET` with an error and otherwise returns at most `l` rows after
skipping `o`. -/
def pgRunSelect {α : Type} (rows : List α) (l o : Int) : Except String (List α) :=
  if l < 0 then .error "LIMIT must not be negative"
  else if o < 0 then .error "OFFSET must not be negative"
  else .ok ((rows.drop o.toNat).take l.toNat)

/-- `queryTable`'s row retrieval: the clamped limit and offset of the source,
run against the upstream (`client.query`). -/
def queryTableRows {α : Type} (rows : List α) (limit offset : Option Int) :
    Except String (List α) :=
  pgRunSelect rows (queryTableLimit limit) (queryTableOffset offset)

/-! ## Test connection (`src/app/api/test-connection/route.ts`) -/

/-- `MAX_TEST_QUERIES` from `test-connection/route.ts`. -/
def MAX_TEST_QUERIES : Nat := 10

/-- Steps of the test-connection `POST`, for stating execution order. -/
inductive TestStep where
  | subscriptionCheck
  | trialGate
  | counterIncrement
  | decryptConfig
  | credFieldCheck
  | connectAttempt
  deriving Repr, DecidableEq

/-- Result of the upstream connection attempt (network effects are outside
the model). -/
inductive TestOutcome where
  | ok
  | fail (msg : String)
  deriving Repr, DecidableEq

/-- The HTTP reply of the test-connection `POST`, as far as the claims are
concerned. -/
inductive TestResponse where
  | limitReached
  | incompleteCredentials
  | connectionFailed (msg : String)
  | connectionOk
  deriving Repr, DecidableEq

/-- Trace, reply and final `test_queries_used` value of one test-connection
request. -/
structure TestResult where
  trace : List TestStep
  response : TestResponse
  finalCounter : Nat
  deriving Repr, DecidableEq

/-- The decrypt loop of the test-connection route: it keeps only non-empty
string values, decrypting each and falling back to the stored value when
decryption throws. -/
def testDecryptConfig (dec : String → Option String) :
    List (String × String) → List (String × String)
  | [] => []
  | (k, v) :: rest =>
      if v ≠ "" then (k, (dec v).getD v) :: testDecryptConfig dec rest
      else testDecryptConfig dec rest

/-- The test-connection `POST` after credential lookup, translated from the
source: the paid-subscription check; for unpaid organizations the trial gate
(`used ≥ MAX_TEST_QUERIES` ⇒ `limit_reached`) followed immediately by the
counter write `test_queries_used := used + 1`; then config decryption, the
per-service completeness check, and the upstream connection attempt.  No
branch after the increment writes the counter again. -/
def testConnection (hasPaid : Bool) (slug : String)
    (dec : String → Option String) (config : List (String × String))
    (used : Nat) (outcome : TestOutcome) : TestResult :=
  if !hasPaid && decide (used ≥ MAX_TEST_QUERIES) then
    ⟨[.subscriptionCheck, .trialGate], .limitReached, used⟩
  else
    let counter' := if hasPaid then used else used + 1
    let pre : List TestStep :=
      if hasPaid then [.subscriptionCheck]
      else [.subscriptionCheck, .trialGate, .counterIncrement]
    let d := testDecryptConfig dec config
    if slug = "postgresql" then
      let c := sqlConnOf d "5432"
      if sqlConnIncomplete c then
        (⟨pre ++ [.decryptConfig, .credFieldCheck], .incompleteCredentials, counter'⟩)
      else
        match outcome with
        | .ok => ⟨pre ++ [.decryptConfig, .credFieldCheck, .connectAttempt],
                  .connectionOk, counter'⟩
        | .fail m => ⟨pre ++ [.decryptConfig, .credFieldCheck, .connectAttempt],
                      .connectionFailed m, counter'⟩
    else if slug = "mysql" then
      let c := sqlConnOf d "3306"
      if sqlConnIncomplete c then
        (⟨pre ++ [.decryptConfig, .credFieldCheck], .incompleteCredentials, counter'⟩)
      else
        match outcome with
        | .ok => ⟨pre ++ [.decryptConfig, .credFieldCheck, .connectAttempt],
                  .connectionOk, counter'⟩
        | .fail m => ⟨pre ++ [.decryptConfig, .credFieldCheck, .connectAttempt],
                      .connectionFailed m, counter'⟩
    else
      match supabaseUrlOf d, supabaseKeyOf d with
      | some _, some _ =>
          match outcome with
          | .ok => ⟨pre ++ [.decryptConfig, .credFieldCheck, .connectAttempt],
                    .connectionOk, counter'⟩
          | .fail m => ⟨pre ++ [.decryptConfig, .credFieldCheck, .connectAttempt],
                        .connectionFailed m, counter'⟩
      | _, _ =>
          ⟨pre ++ [.decryptConfig, .credFieldCheck], .incompleteCredentials, counter'⟩

/-! ## Trial counter concurrency (`src/app/api/test-connection/route.ts`)

The trial gate and increment as two database accesses: the `select` that
reads `test_queries_used`, and the `update` that writes the absolute value
`read + 1`.  The gate comparison runs on the already-read local value.  Two
concurrent requests against the same credential row are modelled as two
clients whose database accesses interleave atomically in an arbitrary
schedule. -/

/-- Where one test-connection request stands: before its read, after its
read (holding the value it saw), or finished (`true` = it passed the gate,
wrote the counter and ran the test; `false` = it replied `limit_reached`). -/
inductive TrialPhase where
  | ready
  | readDone (r : Nat)
  | finished (success : Bool)
  deriving Repr, DecidableEq

/-- The shared credential row plus the two clients. -/
structure TrialSys where
  counter : Nat
  p1 : TrialPhase
  p2 : TrialPhase
  deriving Repr, DecidableEq

/-- One atomic database access of one client: the read, or the gate decision
with the write `counter := r + 1` of the absolute value computed from the
client's own read. -/
def phaseStep (counter : Nat) : TrialPhase → TrialPhase × Nat
  | .ready => (.readDone counter, counter)
  | .readDone r =>
      if r ≥ MAX_TEST_QUERIES then (.finished false, counter)
      else (.finished true, r + 1)
  | .finished b => (.finished b, counter)

/-- Run one step of the scheduled client (`false` = client 1). -/
def trialStep (s : TrialSys) (c : Bool) : TrialSys :=
  if c then
    let r := phaseStep s.counter s.p2
    ⟨r.2, s.p1, r.1⟩
  else
    let r := phaseStep s.counter s.p1
    ⟨r.2, r.1, s.p2⟩

/-- Run a schedule (a list of client choices). -/
def trialRun : List Bool → TrialSys → TrialSys
  | [], s => s
  | c :: σ, s => trialRun σ (trialStep s c)

/-- Both requests start against a credential with `test_queries_used = 9`,
one below `MAX_TEST_QUERIES`. -/
def trialInit : TrialSys := ⟨9, .ready, .ready⟩

/-! ## Auxiliary definitions used by the statements and proofs -/

/-- Left-boundary bookkeeping for the whole-word scanner: the scan position
is reachable with flag `prevW`, i.e. either nothing precedes it and the flag
is `false`, or the preceding character is recorded in the flag. -/
def ScanLeftOk (prevW : Bool) (pre : List Char) : Prop :=
  (pre = [] ∧ prevW = false) ∨ ∃ l c, pre = l ++ [c] ∧ isWordChar c = false

/-- Per-client invariant of the trial-counter system, relative to the shared
counter (runs started at counter 9): a read saw 9 or 10, a read of 10 means
the counter already was 10, and a finished client implies the counter
reached 10. -/
def phaseOk (counter : Nat) : TrialPhase → Prop
  | .ready => True
  | .readDone r => (r = 9 ∨ r = 10) ∧ (r = 10 → counter = 10)
  | .finished _ => counter = 10

/-- Global invariant of the two-client trial-counter system started at
counter 9. -/
def TrialInv (s : TrialSys) : Prop :=
  (s.counter = 9 ∨ s.counter = 10) ∧ phaseOk s.counter s.p1 ∧
    phaseOk s.counter s.p2 ∧
    (s.counter = 10 → s.p1 = .finished true ∨ s.p2 = .finished true)

/-- The canonical order of the `tools/call` pipeline steps inside the
dispatcher; every run executes a prefix of this list. -/
def toolsCallOrder : List Step :=
  [.nameCheck, .toolSetCheck, .allowListCheck, .unseal, .credFieldsCheck,
   .adapterInvoke]

/-- An idealized cipher instance (identity encryption, empty tag) used to
instantiate the `CipherModel` hypotheses on a concrete input. -/
def idCipher : CipherModel :=
  ⟨fun _ _ => [], fun _ _ t => (t, []), fun _ _ ct tag => if tag = [] then some ct else none⟩

/-- A concrete active credential used to exercise the dispatcher. -/
def credDemo : CredentialRec := ⟨true, [("url", "u1"), ("key", "k1")]⟩

/-- A concrete active supabase endpoint used to exercise the dispatcher. -/
def epDemo : EndpointRec := ⟨true, "supabase", none, some credDemo⟩

/-- A concrete gateway environment for `epDemo` with the usage gate open and
a decrypt function that always throws. -/
def envDemo : GatewayEnv := ⟨some epDemo, true, none, fun _ => none⟩

/-- A concrete `tools/call` body for `query_table`. -/
def bodyDemo : RpcBody := ⟨"2.0", "tools/call", some "query_table"⟩

/-! ## Shared lemmas -/

theorem decryptCredentialConfig_eq_map (dec : String → Option String)
    (cfg : List (String × String)) :
    decryptCredentialConfig dec cfg =
      cfg.map fun p => (p.1, (dec p.2).getD p.2) := by
  induction cfg with
  | nil => rfl
  | cons hd tl ih =>
      obtain ⟨k, v⟩ := hd
      cases h : dec v <;> simp [decryptCredentialConfig, ih, h, Option.getD]

/-! ## C7 — identifier guard -/

/-- C7: `sanitizeTableName` returns its argument unchanged exactly when it
matches `^[A-Za-z0-9_.]{1,128}$`, and raises (returns `none`) on every other
input. -/
theorem sanitizeTableName_spec (s : String) :
    sanitizeTableName s = (if identPattern s then some s else none) := by
  obtain ⟨d⟩ := s
  by_cases hd : d = []
  · subst hd; rfl
  · have hne : (⟨d⟩ : String) ≠ "" := by
      simpa [String.ext_iff] using hd
    by_cases hall : d.all isTableChar = true
    · have hfilter : d.filter isTableChar = d :=
        List.filter_eq_self.mpr (List.all_eq_true.mp hall)
      by_cases hlen : d.length ≤ 128
      · simp [sanitizeTableName, identPattern, hne, hfilter, hall,
              String.length, hd, hlen, Nat.not_lt.mpr hlen,
              List.length_pos.mpr hd, Nat.one_le_iff_ne_zero,
              List.length_eq_zero]
      · simp [sanitizeTableName, identPattern, hne, hfilter, hall,
              String.length, hd, hlen, Nat.lt_of_not_le hlen,
              List.length_eq_zero]
    · have hfilter : d.filter isTableChar ≠ d := fun h =>
        hall (List.all_eq_true.mpr (List.filter_eq_self.mp h))
      have hmk : (⟨d.filter isTableChar⟩ : String) ≠ ⟨d⟩ := by
        simpa [String.ext_iff] using hfilter
      simp [sanitizeTableName, identPattern, hne, hmk, hall]

/-! ## C4 — `query_table` row limit -/

/-- C4 (counterexample): a negative `limit` is *not* replaced by the default
50 — `params.limit || 50` keeps any non-zero number, so `-5` flows into the
`LIMIT` clause unchanged and the upstream query fails. -/
theorem queryTableLimit_negative_counterexample :
    queryTableLimit (some (-5)) = -5 ∧ ¬ queryTableLimit (some (-5)) = 50 ∧
    queryTableRows ([0, 1, 2] : List Nat) (some (-5)) none =
      Except.error "LIMIT must not be negative" :=
  ⟨by decide, by decide, rfl⟩

/-- C4 (amended): the absent limit and the falsy limit `0` default to 50; a
positive limit is clamped to `min limit 500` and bounds the returned row
count; a negative limit is kept (not defaulted to 50) and the query errors
upstream. -/
theorem queryTable_limit_clamp {α : Type} (rows : List α) (l bad : Int)
    (off : Option Int) (hl : 0 < l) (hbad : bad < 0)
    (hoff : 0 ≤ queryTableOffset off) :
    queryTableLimit none = 50 ∧
    queryTableLimit (some 0) = 50 ∧
    queryTableLimit (some l) = min l MAX_ROWS ∧
    (∀ res, queryTableRows rows (some l) off = Except.ok res →
      (res.length : Int) ≤ min l MAX_ROWS) ∧
    queryTableLimit (some bad) = bad ∧
    queryTableRows rows (some bad) off =
      Except.error "LIMIT must not be negative" := by
  have hlne : l ≠ 0 := by omega
  have hql : queryTableLimit (some l) = min l MAX_ROWS := by
    simp [queryTableLimit, hlne]
  have hbadne : bad ≠ 0 := by omega
  have hqbad : queryTableLimit (some bad) = bad := by
    simp only [queryTableLimit, hbadne, if_false, MAX_ROWS]
    omega
  refine ⟨rfl, rfl, hql, ?_, hqbad, ?_⟩
  · intro res hres
    have hmin : (0 : Int) ≤ min l MAX_ROWS := by
      simp only [MAX_ROWS]; omega
    rw [queryTableRows, pgRunSelect, hql, if_neg (by omega),
        if_neg (by omega)] at hres
    have heq := Except.ok.inj hres
    have hlen : res.length ≤ (min l MAX_ROWS).toNat := by
      rw [← heq, List.length_take]
      exact Nat.min_le_left _ _
    calc (res.length : Int) ≤ ((min l MAX_ROWS).toNat : Int) := by
          exact_mod_cast hlen
      _ = min l MAX_ROWS := Int.toNat_of_nonneg hmin
  · rw [queryTableRows, pgRunSelect, hqbad, if_pos hbad]

/-- C4 witness: the amended clamping theorem at `limit = 7`, `bad = -5`,
ten table rows, no offset. -/
theorem queryTable_limit_clamp_witness :
    (0 : Int) < 7 ∧ (-5 : Int) < 0 ∧ 0 ≤ queryTableOffset none ∧
    (([0, 1, 2, 3, 4, 5, 6] : List Nat).length : Int) ≤ min 7 MAX_ROWS ∧
    queryTableLimit (some (-5)) = -5 := by
  have h := queryTable_limit_clamp (α := Nat) [0, 1, 2, 3, 4, 5, 6, 7, 8, 9]
    7 (-5) none (by decide) (by decide) (by decide)
  exact ⟨by decide, by decide, by decide,
    h.2.2.2.1 [0, 1, 2, 3, 4, 5, 6] rfl, h.2.2.2.2.1⟩

/-! ## C9 — `decryptCredentialConfig` totality and pass-through -/

/-- C9: `decryptCredentialConfig` never throws: it maps every config to a
config with exactly the same keys in the same order, each value being the
decryption when it succeeds and the stored value verbatim when it fails. -/
theorem decryptCredentialConfig_total (dec : String → Option String)
    (cfg : List (String × String)) :
    decryptCredentialConfig dec cfg =
      (cfg.map fun p => (p.1, (dec p.2).getD p.2)) ∧
    (decryptCredentialConfig dec cfg).map Prod.fst = cfg.map Prod.fst := by
  refine ⟨decryptCredentialConfig_eq_map dec cfg, ?_⟩
  rw [decryptCredentialConfig_eq_map dec cfg, List.map_map]
  rfl

/-! ## C3 — trial counter race -/

/-- C3 (counterexample): under the interleaving read₁ read₂ write₁ write₂
both concurrent test-connection requests read 9, both pass the gate, and
both report success — the claimed "exactly one succeeds, the other replies
limit_reached" fails.  The final counter is still 10 because both writes
store the absolute value 9 + 1. -/
theorem trial_race_counterexample :
    trialRun [false, true, false, true] trialInit =
      ⟨10, .finished true, .finished true⟩ := by decide

/-- C3 (amended): the increment is a blind read-then-write, not a
compare-and-swap.  For every schedule the final counter never exceeds 10
(each write stores `read + 1` computed from a gate-passing read), and when
both requests complete the counter is exactly 10 and at least one request
succeeded; but the claimed mutual exclusion ("exactly one succeeds") does
not hold — see the counterexample. -/
theorem trial_blind_increment (σ : List Bool) :
    (trialRun σ trialInit).counter ≤ 10 ∧
    (∀ b₁ b₂, (trialRun σ trialInit).p1 = .finished b₁ →
      (trialRun σ trialInit).p2 = .finished b₂ →
      (trialRun σ trialInit).counter = 10 ∧ (b₁ = true ∨ b₂ = true)) := by
  have hstep : ∀ (s : TrialSys) (c : Bool), TrialInv s → TrialInv (trialStep s c) := by
    rintro ⟨n, p1, p2⟩ c ⟨hc, h1, h2, hw⟩
    cases c
    · -- client 1 moves
      cases p1 with
      | ready =>
          show TrialInv ⟨n, .readDone n, p2⟩
          refine ⟨hc, ⟨hc, fun h => h⟩, h2, fun h10 => ?_⟩
          rcases hw h10 with h | h
          · exact absurd h (by simp)
          · exact Or.inr h
      | readDone r =>
          obtain ⟨hr, hr10⟩ : (r = 9 ∨ r = 10) ∧ (r = 10 → n = 10) := h1
          rcases hr with hr | hr
          · subst hr
            show TrialInv ⟨10, .finished true, p2⟩
            refine ⟨Or.inr rfl, rfl, ?_, fun _ => Or.inl rfl⟩
            cases p2 with
            | ready => exact trivial
            | readDone r₂ => exact ⟨h2.1, fun _ => rfl⟩
            | finished b => exact rfl
          · subst hr
            have h10 : n = 10 := hr10 rfl
            subst h10
            show TrialInv ⟨10, .finished false, p2⟩
            refine ⟨Or.inr rfl, rfl, h2, fun _ => ?_⟩
            rcases hw rfl with h | h
            · exact absurd h (by simp)
            · exact Or.inr h
      | finished b =>
          show TrialInv ⟨n, .finished b, p2⟩
          exact ⟨hc, h1, h2, hw⟩
    · -- client 2 moves
      cases p2 with
      | ready =>
          show TrialInv ⟨n, p1, .readDone n⟩
          refine ⟨hc, h1, ⟨hc, fun h => h⟩, fun h10 => ?_⟩
          rcases hw h10 with h | h
          · exact Or.inl h
          · exact absurd h (by simp)
      | readDone r =>
          obtain ⟨hr, hr10⟩ : (r = 9 ∨ r = 10) ∧ (r = 10 → n = 10) := h2
          rcases hr with hr | hr
          · subst hr
            show TrialInv ⟨10, p1, .finished true⟩
            refine ⟨Or.inr rfl, ?_, rfl, fun _ => Or.inr rfl⟩
            cases p1 with
            | ready => exact trivial
            | readDone r₁ => exact ⟨h1.1, fun _ => rfl⟩
            | finished b => exact rfl
          · subst hr
            have h10 : n = 10 := hr10 rfl
            subst h10
            show TrialInv ⟨10, p1, .finished false⟩
            refine ⟨Or.inr rfl, h1, rfl, fun _ => ?_⟩
            rcases hw rfl with h | h
            · exact Or.inl h
            · exact absurd h (by simp)
      | finished b =>
          show TrialInv ⟨n, p1, .finished b⟩
          exact ⟨hc, h1, h2, hw⟩
  have hrun : ∀ (τ : List Bool) (s : TrialSys), TrialInv s → TrialInv (trialRun τ s) := by
    intro τ
    induction τ with
    | nil => exact fun s hs => hs
    | cons c τ ih => exact fun s hs => ih _ (hstep s c hs)
  have hinit : TrialInv trialInit :=
    ⟨Or.inl rfl, trivial, trivial, fun h => absurd h (by decide)⟩
  obtain ⟨hc, h1, h2, hw⟩ := hrun σ trialInit hinit
  constructor
  · rcases hc with h | h <;> omega
  · intro b₁ b₂ hb₁ hb₂
    have h10 : (trialRun σ trialInit).counter = 10 := by
      have := h1
      rw [hb₁] at this
      exact this
    refine ⟨h10, ?_⟩
    rcases hw h10 with h | h
    · rw [hb₁] at h
      exact Or.inl (TrialPhase.finished.inj h)
    · rw [hb₂] at h
      exact Or.inr (TrialPhase.finished.inj h)

/-- C3 witness: a serialized schedule at counter 9 where both clients
complete — the final counter is 10 and at least one request succeeded. -/
theorem trial_blind_increment_witness :
    (trialRun [false, false, true, true] trialInit).counter = 10 ∧
    (true = true ∨ false = true) :=
  (trial_blind_increment [false, false, true, true]).2 true false
    (by decide) (by decide)

theorem append_append_head_ne (a b c d : String)
    (hne : a.data.head? ≠ d.data.head?) (ha : a.data ≠ []) :
    (a ++ b) ++ c ≠ d := by
  intro he
  apply hne
  have h1 : ((a ++ b) ++ c).data.head? = d.data.head? := by rw [he]
  rw [String.data_append, String.data_append, List.append_assoc] at h1
  rw [← h1]
  cases h : a.data with
  | nil => exact absurd h ha
  | cons x xs => rfl

/-! ## C10 — test connection consumes a trial query before the test -/

/-- C10: for an organization without an active paid subscription and a
counter below the cap, the test-connection path increments
`test_queries_used` to `used + 1` immediately after the gate — before the
config is decrypted, before the completeness check, and before the upstream
connection attempt — and no later branch restores it: the final counter is
`used + 1` for every config and every outcome, failures included. -/
theorem testConnection_consumes_trial (slug : String)
    (dec : String → Option String) (config : List (String × String))
    (used : Nat) (outcome : TestOutcome) (h : used < MAX_TEST_QUERIES) :
    (testConnection false slug dec config used outcome).finalCounter = used + 1 ∧
    (testConnection false slug dec config used outcome).trace.take 3 =
      [.subscriptionCheck, .trialGate, .counterIncrement] := by
  have hgate : ¬ used ≥ MAX_TEST_QUERIES := Nat.not_le.mpr h
  have hdec : decide (used ≥ MAX_TEST_QUERIES) = false := decide_eq_false hgate
  refine ⟨?_, ?_⟩ <;>
  · unfold testConnection
    simp only [Bool.not_false, Bool.true_and, hdec, Bool.false_eq_true,
      if_false]
    cases outcome <;> split <;> (try split) <;> (try split) <;> rfl

/-- C10 witness: a PostgreSQL test at counter 5 whose upstream connection
fails still consumes a trial query. -/
theorem testConnection_consumes_trial_witness :
    5 < MAX_TEST_QUERIES ∧
    (testConnection false "postgresql" (fun _ => none)
      [("host", "h"), ("database", "d"), ("user", "u"), ("password", "p")]
      5 (.fail "connection refused")).finalCounter = 5 + 1 :=
  ⟨by decide, (testConnection_consumes_trial "postgresql" (fun _ => none)
    [("host", "h"), ("database", "d"), ("user", "u"), ("password", "p")]
    5 (.fail "connection refused") (by decide)).1⟩

/-! ## C6 — pipeline order -/

/-- C6 (counterexample): the daily-quota gate does not run "only for
tools/call, after the preceding validations" — it runs before the method
dispatch for every method.  A quota-denied `initialize` request is answered
with `-32003` after a trace that contains the quota gate and never reaches
name validation or credential unsealing. -/
theorem quota_gate_before_dispatch_counterexample :
    gatewayPost
      ⟨some ⟨true, "postgresql", none, some ⟨true, [("host", "h")]⟩⟩, false,
       some "Daily limit reached", fun _ => none⟩
      (some ⟨"2.0", "initialize", none⟩) =
    ([.parseBody, .protocolCheck, .endpointLookup, .activeCheck,
      .credentialCheck, .quotaGate],
     .rpcErr (-32003) "Daily limit reached") := rfl

/-- C6 (amended): the usage-limit gate runs before the JSON-RPC method
dispatch — for every method, not only `tools/call`, and in particular before
credential unsealing rather than after it.  Within `tools/call` the
remaining steps do run in the claimed order: name validation, tool-set
membership, allow-list, unsealing, credential-field check, adapter
invocation — every run executes a prefix of `toolsCallOrder`. -/
theorem tools_call_pipeline_order (env : GatewayEnv) (b : RpcBody)
    (ep : EndpointRec) (cred : CredentialRec)
    (hep : env.endpoint = some ep) (hact : ep.is_active = true)
    (hcred : ep.credentials = some cred) (hcact : cred.is_active = true)
    (hq : env.usageAllowed = true) (hjr : b.jsonrpc = "2.0")
    (hm : b.method = "tools/call") :
    (gatewayPost env (some b)).1 =
      [.parseBody, .protocolCheck, .endpointLookup, .activeCheck,
       .credentialCheck, .quotaGate, .touchEndpoint] ++
      (toolsCall env.dec ep.service_slug ep.allowed_tools cred.config
        b.paramName).1 ∧
    ∃ k, (toolsCall env.dec ep.service_slug ep.allowed_tools cred.config
        b.paramName).1 = toolsCallOrder.take k := by
  obtain ⟨endp, ua, ur, dec⟩ := env
  obtain ⟨jr, m, pn⟩ := b
  obtain ⟨epa, slug, al, creds⟩ := ep
  obtain ⟨ca, cfg⟩ := cred
  simp only at hep hact hcred hcact hq hjr hm
  subst hep hact hcred hcact hq hjr hm
  constructor
  · rfl
  · unfold toolsCall
    dsimp only
    split <;> (try split) <;> (try split) <;> (try split) <;> (try split) <;>
        (try split) <;>
      first
      | exact ⟨1, rfl⟩
      | exact ⟨2, rfl⟩
      | exact ⟨3, rfl⟩
      | exact ⟨5, rfl⟩
      | exact ⟨6, rfl⟩

/-- C6 witness: a quota-passing `tools/call` on a concrete supabase endpoint
runs the outer gates (quota included) and then the tools/call steps. -/
theorem tools_call_pipeline_order_witness :
    (gatewayPost envDemo (some bodyDemo)).1 =
      [.parseBody, .protocolCheck, .endpointLookup, .activeCheck,
       .credentialCheck, .quotaGate, .touchEndpoint] ++
      (toolsCall envDemo.dec epDemo.service_slug epDemo.allowed_tools
        credDemo.config bodyDemo.paramName).1 :=
  (tools_call_pipeline_order envDemo bodyDemo epDemo credDemo
    rfl rfl rfl rfl rfl rfl rfl).1

/-! ## C1 — unknown service slug -/

/-- C1 (counterexample): an endpoint with the unknown service slug
`"mongodb"` does not get a `-32000` reply — the dispatcher falls back to the
supabase default branch and invokes the supabase adapter when the config
carries a URL and an API key. -/
theorem unknown_service_counterexample :
    gatewayPost
      ⟨some ⟨true, "mongodb", none, some ⟨true,
        [("url", "https://db.example.com"), ("service_role_key", "srk")]⟩⟩,
       true, none, fun _ => none⟩
      (some ⟨"2.0", "tools/call", some "list_tables"⟩) =
    ([.parseBody, .protocolCheck, .endpointLookup, .activeCheck,
      .credentialCheck, .quotaGate, .touchEndpoint, .nameCheck, .toolSetCheck,
      .allowListCheck, .unseal, .credFieldsCheck, .adapterInvoke],
     .invoked (.invokeSupabase "list_tables" "https://db.example.com" "srk"
       [("url", "https://db.example.com"), ("service_role_key", "srk")])) := rfl

/-- C1 (amended): every service slug other than `postgresql` and `mysql` —
unknown slugs included — is routed to the supabase default branch: the tool
set is `SUPABASE_TOOLS`, and the dispatcher replies `-32000` (incomplete
credentials) only when the decrypted config lacks a truthy URL or API key;
otherwise it invokes the supabase adapter.  There is no unknown-service
error and no guarantee that no adapter runs. -/
theorem unknown_slug_falls_back_to_supabase (dec : String → Option String)
    (slug : String) (allowed : Option (List String))
    (config : List (String × String)) (n : String)
    (h1 : slug ≠ "postgresql") (h2 : slug ≠ "mysql") (hn : n ≠ "")
    (ht : (SUPABASE_TOOLS.any fun t => t.name = n) = true)
    (ha : allowedBlocks allowed n = false) :
    availableTools slug = SUPABASE_TOOLS ∧
    (∀ url key,
      supabaseUrlOf (decryptCredentialConfig dec config) = some url →
      supabaseKeyOf (decryptCredentialConfig dec config) = some key →
      (toolsCall dec slug allowed config (some n)).2 =
        .invokeSupabase n url key (decryptCredentialConfig dec config)) ∧
    ((supabaseUrlOf (decryptCredentialConfig dec config) = none ∨
      supabaseKeyOf (decryptCredentialConfig dec config) = none) →
      (toolsCall dec slug allowed config (some n)).2 =
        .rpcError (-32000) ("Incomplete credentials. Found keys: [" ++
          joinKeys (decryptCredentialConfig dec config) ++
          "]. Need a URL and API key.")) := by
  have havail : availableTools slug = SUPABASE_TOOLS := by
    simp [availableTools, h1, h2]
  have hbase : ∀ res,
      (match supabaseUrlOf (decryptCredentialConfig dec config),
             supabaseKeyOf (decryptCredentialConfig dec config) with
       | some url, some apiKey =>
           ([Step.nameCheck, Step.toolSetCheck, Step.allowListCheck,
             Step.unseal] ++ [Step.credFieldsCheck, Step.adapterInvoke],
            DispatchOutcome.invokeSupabase n url apiKey
              (decryptCredentialConfig dec config))
       | _, _ =>
           ([Step.nameCheck, Step.toolSetCheck, Step.allowListCheck,
             Step.unseal] ++ [Step.credFieldsCheck],
            DispatchOutcome.rpcError (-32000)
              ("Incomplete credentials. Found keys: [" ++
               joinKeys (decryptCredentialConfig dec config) ++
               "]. Need a URL and API key."))) = res →
      toolsCall dec slug allowed config (some n) = res := by
    intro res hres
    unfold toolsCall
    dsimp only
    rw [if_neg (by simp [jsTruthy, hn]), if_neg (by simp [havail, ht]),
        if_neg (by simp [ha]), if_neg h1, if_neg h2]
    exact hres
  refine ⟨havail, ?_, ?_⟩
  · intro url key hu hk
    rw [hbase _ rfl, hu, hk]
  · intro hmiss
    rcases hmiss with hu | hk
    · rw [hbase _ rfl, hu]
    · rw [hbase _ rfl, hk]
      rcases hu' : supabaseUrlOf (decryptCredentialConfig dec config) with _ | u
      · rfl
      · rfl

/-- C1 witness: the fall-back theorem at the concrete `"mongodb"` endpoint
whose config carries a URL and an API key — the supabase adapter is
invoked. -/
theorem unknown_slug_falls_back_witness :
    (toolsCall (fun _ => none) "mongodb" none
      [("url", "https://db.example.com"), ("service_role_key", "srk")]
      (some "list_tables")).2 =
    .invokeSupabase "list_tables" "https://db.example.com" "srk"
      [("url", "https://db.example.com"), ("service_role_key", "srk")] := by
  have h := unknown_slug_falls_back_to_supabase (fun _ => none) "mongodb" none
    [("url", "https://db.example.com"), ("service_role_key", "srk")]
    "list_tables" (by decide) (by decide) (by decide) (by decide) (by decide)
  exact h.2.1 "https://db.example.com" "srk" rfl rfl

/-! ## C2 — credential decryption failure -/

/-- C2 (counterexample): when every stored value fails to unseal (the
decrypt function throws on each, modelled by `fun _ => none`), the
dispatcher does not reply `-32000` "re-add credentials" — the per-field
`try/catch` passes the stored values through verbatim and the adapter is
invoked with the undecrypted values. -/
theorem decrypt_passthrough_counterexample :
    (toolsCall (fun _ => none) "supabase" none
      [("url", "garbled-ciphertext"), ("api_key", "garbled-key")]
      (some "list_tables")).2 =
    .invokeSupabase "list_tables" "garbled-ciphertext" "garbled-key"
      [("url", "garbled-ciphertext"), ("api_key", "garbled-key")] := rfl

/-- C2 (amended): a credential field that cannot be unsealed is passed
through verbatim (the stored value reaches the adapter), and the
`-32000` "Failed to decrypt credentials" reply is unreachable: for every
decrypt function, endpoint and request, the dispatcher never produces it,
because `decryptCredentialConfig` catches per-field failures and cannot
throw. -/
theorem decrypt_failure_passthrough (dec : String → Option String)
    (slug : String) (allowed : Option (List String))
    (config : List (String × String)) (toolName : Option String) :
    ((toolsCall dec slug allowed config toolName).2 ≠
      .rpcError (-32000)
        "Failed to decrypt credentials. They may need to be re-added.") ∧
    (∀ k v, dec v = none → lookupKey config k = some v →
      lookupKey (decryptCredentialConfig dec config) k = some v) := by
  constructor
  · unfold toolsCall
    dsimp only
    split <;> (try split) <;> (try split) <;> (try split) <;> (try split) <;>
        (try split) <;>
      · intro h
        first
        | exact DispatchOutcome.noConfusion h
        | (injection h with hc hm
           first
           | exact absurd hc (by decide)
           | exact append_append_head_ne _ _ _ _ (by decide) (by decide) hm)
  · intro k v hdec
    induction config with
    | nil => intro hlook; simp [lookupKey] at hlook
    | cons hd tl ih =>
        obtain ⟨k', v'⟩ := hd
        intro hlook
        by_cases hk : k' = k
        · subst hk
          rw [lookupKey, List.find?_cons_of_pos _ (by simp)] at hlook
          simp only [Option.map_some'] at hlook
          have hv : v' = v := Option.some.inj hlook
          subst hv
          simp only [decryptCredentialConfig, hdec, lookupKey]
          rw [List.find?_cons_of_pos _ (by simp)]
          rfl
        · rw [lookupKey, List.find?_cons_of_neg _ (by simp [hk])] at hlook
          simp only [decryptCredentialConfig, lookupKey]
          rw [List.find?_cons_of_neg _ (by simp [hk])]
          exact ih hlook

/-- C2 witness: a stored value the decrypt function throws on is passed
through verbatim by `decryptCredentialConfig`. -/
theorem decrypt_failure_passthrough_witness :
    lookupKey (decryptCredentialConfig (fun _ => none)
      [("url", "garbled-ciphertext")]) "url" = some "garbled-ciphertext" :=
  (decrypt_failure_passthrough (fun _ => none) "supabase" none
    [("url", "garbled-ciphertext")] (some "list_tables")).2 "url"
    "garbled-ciphertext" rfl rfl

/-! ## C5 — SQL guard soundness: scanner lemmas -/

theorem stripExact_append (pat r : List Char) :
    stripExact pat (pat ++ r) = some r := by
  induction pat with
  | nil => rfl
  | cons p ps ih => simp [stripExact, ih]

theorem hasSub_of_split (pat : List Char) (hp : pat ≠ []) :
    ∀ x y, hasSub pat (x ++ (pat ++ y)) = true := by
  intro x
  induction x with
  | nil =>
      intro y
      obtain ⟨p, ps, rfl⟩ : ∃ p ps, pat = p :: ps := by
        cases pat with
        | nil => exact absurd rfl hp
        | cons p ps => exact ⟨p, ps, rfl⟩
      have hse : stripExact (p :: ps) (p :: (ps ++ y)) = some y :=
        stripExact_append (p :: ps) y
      simp [hasSub, hse]
  | cons c x' ih =>
      intro y
      simp [hasSub, ih y]

theorem stripKw_of_map (mid post kw : List Char) (h : mid.map upChar = kw) :
    stripKw kw (mid ++ post) = some post := by
  induction mid generalizing kw with
  | nil => subst h; rfl
  | cons m ms ih =>
      subst h
      simp [stripKw, ih _ rfl]

theorem boundaryOk_of_right (post : List Char) (h : WordBoundaryRight post) :
    boundaryOk post = true := by
  rcases h with rfl | ⟨c, l, rfl, hc⟩
  · rfl
  · simp [boundaryOk, hc]

theorem scanLeftOk_of_boundary (pre : List Char) (h : WordBoundaryLeft pre) :
    ScanLeftOk false pre := by
  rcases h with rfl | ⟨l, c, rfl, hc⟩
  · exact Or.inl ⟨rfl, rfl⟩
  · exact Or.inr ⟨l, c, rfl, hc⟩

theorem scanLeftOk_step (prevW : Bool) (c : Char) (pre : List Char)
    (h : ScanLeftOk prevW (c :: pre)) : ScanLeftOk (isWordChar c) pre := by
  rcases h with ⟨h, _⟩ | ⟨l, d, heq, hd⟩
  · cases h
  · cases l with
    | nil =>
        obtain ⟨h1, h2⟩ : c = d ∧ pre = [] := by simpa using heq
        subst h1; subst h2
        exact Or.inl ⟨rfl, hd⟩
    | cons e l' =>
        obtain ⟨h1, h2⟩ : c = e ∧ pre = l' ++ [d] := by simpa using heq
        exact Or.inr ⟨l', d, h2, hd⟩

theorem scanWord_sound (kw : List Char) (hk : kw ≠ []) :
    ∀ (pre : List Char) (prevW : Bool) (cs mid post : List Char),
      scanWord kw prevW cs = false → cs = pre ++ (mid ++ post) →
      mid.map upChar = kw → ScanLeftOk prevW pre → WordBoundaryRight post →
      False := by
  intro pre
  induction pre with
  | nil =>
      intro prevW cs mid post hscan hcs hmap hleft hright
      have hprev : prevW = false := by
        rcases hleft with ⟨_, h⟩ | ⟨l, c, h, _⟩
        · exact h
        · simp at h
      subst hprev
      subst hcs
      obtain ⟨m, ms, rfl⟩ : ∃ m ms, mid = m :: ms := by
        cases mid with
        | nil => exact absurd hmap.symm hk
        | cons m ms => exact ⟨m, ms, rfl⟩
      have hww : wholeWordAt kw (m :: (ms ++ post)) = true := by
        unfold wholeWordAt
        rw [show m :: (ms ++ post) = (m :: ms) ++ post from rfl,
            stripKw_of_map _ _ _ hmap]
        exact boundaryOk_of_right post hright
      simp [scanWord, hww] at hscan
  | cons c pre' ih =>
      intro prevW cs mid post hscan hcs hmap hleft hright
      subst hcs
      have h2 : scanWord kw (isWordChar c) (pre' ++ (mid ++ post)) = false := by
        simp only [scanWord, Bool.or_eq_false_iff] at hscan
        exact hscan.2
      exact ih (isWordChar c) _ mid post h2 rfl hmap
        (scanLeftOk_step _ _ _ hleft) hright

theorem startsWithUp_take (p l : List Char) (h : startsWithUp p l = true) :
    l.take p.length = p := by
  induction p generalizing l with
  | nil => rfl
  | cons a ps ih =>
      cases l with
      | nil => cases h
      | cons c cs =>
          simp only [startsWithUp, Bool.and_eq_true, decide_eq_true_eq] at h
          obtain ⟨rfl, h2⟩ := h
          simp [List.take_succ_cons, ih cs h2]

/-- C5: soundness of the SQL guard.  Every input accepted by `sanitizeSql`
is non-empty and non-whitespace, contains no `;`, no `--`, no `/*`, contains
none of the blocked keywords as a whole word in any letter case, and after
trimming begins with `SELECT` or `WITH` case-insensitively. -/
theorem sanitizeSql_sound (s : String) (h : (sanitizeSql s).safe = true) :
    s ≠ "" ∧ jsTrim s ≠ "" ∧ ';' ∉ s.data ∧
    ¬ ContainsSub "--".data s.data ∧ ¬ ContainsSub "/*".data s.data ∧
    (∀ kw ∈ BLOCKED_KEYWORDS, ¬ OccursWholeWord kw s) ∧
    (((jsTrim s).data.map upChar).take 6 = "SELECT".data ∨
     ((jsTrim s).data.map upChar).take 4 = "WITH".data) := by
  unfold sanitizeSql at h
  by_cases h0 : s = ""
  · rw [if_pos h0] at h; cases h
  rw [if_neg h0] at h
  by_cases h1 : (jsTrim s).length = 0
  · rw [if_pos h1] at h; cases h
  rw [if_neg h1] at h
  by_cases h2 : (startsWithUp "SELECT".data ((jsTrim s).data.map upChar) ||
      startsWithUp "WITH".data ((jsTrim s).data.map upChar)) = true
  swap
  · rw [if_pos (by simp [Bool.eq_false_iff.mpr h2])] at h; cases h
  rw [if_neg (by simp [h2])] at h
  cases hfb : findBlocked s with
  | some kw => rw [hfb] at h; cases h
  | none =>
  rw [hfb] at h
  by_cases h3 : s.data.contains ';' = true
  · rw [if_pos h3] at h; cases h
  rw [if_neg h3] at h
  by_cases h4 : (hasSub "--".data s.data || hasSub "/*".data s.data) = true
  · rw [if_pos h4] at h; cases h
  rw [if_neg h4] at h
  have h4' := Bool.or_eq_false_iff.mp (Bool.eq_false_iff.mpr h4)
  refine ⟨h0, ?_, ?_, ?_, ?_, ?_, ?_⟩
  · intro he; exact h1 (by rw [he]; rfl)
  · intro hm
    exact h3 (List.elem_iff.mpr hm)
  · rintro ⟨x, y, hxy⟩
    have := hasSub_of_split "--".data (by decide) x y
    rw [List.append_assoc] at hxy
    rw [← hxy] at this
    rw [this] at h4'
    cases h4'.1
  · rintro ⟨x, y, hxy⟩
    have := hasSub_of_split "/*".data (by decide) x y
    rw [List.append_assoc] at hxy
    rw [← hxy] at this
    rw [this] at h4'
    cases h4'.2
  · intro kw hkw
    rintro ⟨pre, mid, post, hs, hmap, hl, hr⟩
    have hkne : kw.data ≠ [] := by
      revert hkw
      have : ∀ k ∈ BLOCKED_KEYWORDS, k.data ≠ [] := by decide
      exact this kw
    have hscan : testWholeWord kw s = false := by
      have := List.find?_eq_none.mp hfb kw hkw
      exact Bool.eq_false_iff.mpr this
    exact scanWord_sound kw.data hkne pre false s.data mid post hscan
      (by rw [hs, List.append_assoc]) hmap (scanLeftOk_of_boundary pre hl) hr
  · rcases Bool.or_eq_true_iff.mp h2 with hL | hW
    · exact Or.inl (startsWithUp_take _ _ hL)
    · exact Or.inr (startsWithUp_take _ _ hW)

/-- C5 witness: the soundness theorem applied to a concrete accepted
query. -/
theorem sanitizeSql_sound_witness :
    (sanitizeSql "SELECT id FROM users WHERE org = 42").safe = true ∧
    ';' ∉ ("SELECT id FROM users WHERE org = 42" : String).data ∧
    ¬ OccursWholeWord "DROP" "SELECT id FROM users WHERE org = 42" := by
  have h := sanitizeSql_sound "SELECT id FROM users WHERE org = 42" (by decide)
  exact ⟨by decide, h.2.2.1, h.2.2.2.2.2.1 "DROP" (by decide)⟩

/-! ## C8 — sealing round trip -/

theorem hexVal_hexChar (k : Nat) (hk : k < 16) : hexVal (hexChar k) = some k := by
  interval_cases k <;> decide

theorem hexChar_ne_colon (k : Nat) (hk : k < 16) : hexChar k ≠ ':' := by
  interval_cases k <;> decide

theorem encodeHex_ne_colon (bs : List Nat) : ':' ∉ encodeHex bs := by
  induction bs with
  | nil => simp [encodeHex]
  | cons b bs ih =>
      simp only [encodeHex, List.mem_cons, not_or]
      exact ⟨fun h => hexChar_ne_colon _ (Nat.mod_lt _ (by omega)) h.symm,
             fun h => hexChar_ne_colon _ (Nat.mod_lt _ (by omega)) h.symm, ih⟩

theorem length_encodeHex (bs : List Nat) :
    (encodeHex bs).length = 2 * bs.length := by
  induction bs with
  | nil => rfl
  | cons b bs ih => simp [encodeHex, ih]; omega

theorem decodeHex_encodeHex (bs : List Nat) (hb : ∀ b ∈ bs, b < 256) :
    decodeHex (encodeHex bs) = some bs := by
  induction bs with
  | nil => rfl
  | cons b bs ih =>
      have hblt : b < 256 := hb b (by simp)
      have h1 : b / 16 % 16 < 16 := Nat.mod_lt _ (by omega)
      have h2 : b % 16 < 16 := Nat.mod_lt _ (by omega)
      have ihs : decodeHex (encodeHex bs) = some bs :=
        ih fun x hx => hb x (by simp [hx])
      simp only [encodeHex, decodeHex, hexVal_hexChar _ h1, hexVal_hexChar _ h2,
        ihs, Option.bind_eq_bind, Option.some_bind]
      congr 2
      omega

theorem splitColon_append (a r : List Char) (ha : ':' ∉ a) :
    splitColon (a ++ ':' :: r) = a :: splitColon r := by
  induction a with
  | nil => simp [splitColon]
  | cons c a' ih =>
      have hc : ¬ (c = ':') := fun h => ha (by simp [h])
      have ha' : ':' ∉ a' := fun h => ha (by simp [h])
      show splitColon (c :: (a' ++ ':' :: r)) = (c :: a') :: splitColon r
      simp only [splitColon, if_neg hc, ih ha']

theorem splitColon_nocolon (a : List Char) (ha : ':' ∉ a) :
    splitColon a = [a] := by
  induction a with
  | nil => rfl
  | cons c a' ih =>
      have hc : ¬ (c = ':') := fun h => ha (by simp [h])
      have ha' : ':' ∉ a' := fun h => ha (by simp [h])
      simp only [splitColon, if_neg hc, ih ha']

theorem splitColon_four (a b c d : List Char) (ha : ':' ∉ a) (hb : ':' ∉ b)
    (hc : ':' ∉ c) (hd : ':' ∉ d) :
    splitColon (a ++ ':' :: b ++ ':' :: c ++ ':' :: d) = [a, b, c, d] := by
  rw [List.append_assoc, List.append_assoc, List.cons_append,
      List.cons_append]
  rw [splitColon_append _ _ ha, splitColon_append _ _ hb,
      splitColon_append _ _ hc, splitColon_nocolon _ hd]

/-- C8: with the master key set, `decrypt (encrypt s)` returns `s` whenever
the abstracted AES-256-GCM primitive satisfies its round-trip contract and
produces byte output; `encrypt` draws the 64-byte salt and the 16-byte IV
from the randomness stream at the call's position (fresh bytes on every
call) and emits the four-part envelope `salt:iv:ciphertext:tag` in hex (128
hex characters of salt, 32 of IV). -/
theorem encrypt_decrypt_roundtrip (M : CipherModel) (rng : Nat → Nat)
    (masterKey text : List Nat) (pos : Nat)
    (hgcm : ∀ k iv t,
      M.decBytes k iv (M.encBytes k iv t).1 (M.encBytes k iv t).2 = some t)
    (hct : ∀ b ∈ (M.encBytes (M.kdf masterKey (freshSalt rng pos))
        (freshIV rng pos) text).1, b < 256)
    (htag : ∀ b ∈ (M.encBytes (M.kdf masterKey (freshSalt rng pos))
        (freshIV rng pos) text).2, b < 256)
    (hrng : ∀ n, rng n < 256) :
    ∃ env, encrypt M (some masterKey) rng pos text = some env ∧
      decrypt M (some masterKey) env = some text ∧
      splitColon env =
        [encodeHex (freshSalt rng pos), encodeHex (freshIV rng pos),
         encodeHex (M.encBytes (M.kdf masterKey (freshSalt rng pos))
           (freshIV rng pos) text).1,
         encodeHex (M.encBytes (M.kdf masterKey (freshSalt rng pos))
           (freshIV rng pos) text).2] ∧
      (encodeHex (freshSalt rng pos)).length = 2 * SALT_LENGTH ∧
      (encodeHex (freshIV rng pos)).length = 2 * IV_LENGTH := by
  have hsalt : ∀ b ∈ freshSalt rng pos, b < 256 := by
    intro b hbmem
    simp only [freshSalt, List.mem_map, List.mem_range] at hbmem
    obtain ⟨i, _, rfl⟩ := hbmem
    exact hrng _
  have hiv : ∀ b ∈ freshIV rng pos, b < 256 := by
    intro b hbmem
    simp only [freshIV, List.mem_map, List.mem_range] at hbmem
    obtain ⟨i, _, rfl⟩ := hbmem
    exact hrng _
  have hsplit : splitColon
      (encodeHex (freshSalt rng pos) ++ ':' :: encodeHex (freshIV rng pos) ++
        ':' :: encodeHex (M.encBytes (M.kdf masterKey (freshSalt rng pos))
          (freshIV rng pos) text).1 ++
        ':' :: encodeHex (M.encBytes (M.kdf masterKey (freshSalt rng pos))
          (freshIV rng pos) text).2) =
      [encodeHex (freshSalt rng pos), encodeHex (freshIV rng pos),
       encodeHex (M.encBytes (M.kdf masterKey (freshSalt rng pos))
         (freshIV rng pos) text).1,
       encodeHex (M.encBytes (M.kdf masterKey (freshSalt rng pos))
         (freshIV rng pos) text).2] :=
    splitColon_four _ _ _ _ (encodeHex_ne_colon _) (encodeHex_ne_colon _)
      (encodeHex_ne_colon _) (encodeHex_ne_colon _)
  refine ⟨_, rfl, ?_, hsplit, by rw [length_encodeHex, freshSalt,
    List.length_map, List.length_range], by rw [length_encodeHex, freshIV,
    List.length_map, List.length_range]⟩
  show decrypt M (some masterKey) _ = some text
  unfold decrypt
  rw [hsplit]
  dsimp only
  rw [decodeHex_encodeHex _ hsalt, decodeHex_encodeHex _ hiv,
      decodeHex_encodeHex _ hct, decodeHex_encodeHex _ htag]
  simp only [Option.bind_eq_bind, Option.some_bind]
  exact hgcm _ _ _

/-- C8 witness: the round trip at a concrete idealized cipher, key,
randomness stream and plaintext. -/
theorem encrypt_decrypt_roundtrip_witness :
    decrypt idCipher (some [7])
      ((encrypt idCipher (some [7]) (fun _ => 65) 0 [104, 105]).getD []) =
    some [104, 105] := by
  obtain ⟨env, he, hd, -, -, -⟩ :=
    encrypt_decrypt_roundtrip idCipher (fun _ => 65) [7] [104, 105] 0
      (fun k iv t => rfl) (by decide) (by decide)
      (fun n => by show (65 : Nat) < 256; decide)
  rw [he]
  exact hd

end Synra
